import Mathlib

/-!
# Verification of the Poetic-LLM consensus / routing / expert-runner code

This file is a shallow embedding, in Lean 4, of the pure computational core of
the Poetic-LLM TypeScript sources:

* `canonicalizeAnswer`, `levenshteinDistance`, `stringSimilarity`,
  `ExactMatchAggregator.aggregate`, `SemanticAggregator.aggregate`
  (the consensus module);
* `TaskRouter.classifyTask` (the task router);
* the `close`-event handler of `ExpertRunner.executePython`, and the retry
  loop of `ExpertRunner.run` (the expert runner), with the provider / sandbox
  environment abstracted into an explicit stream of attempt outcomes;
* the enabled-provider dispatch prefix of `PoetiqOrchestrator.solveTask`
  and `solveQuantTask`.

JavaScript strings are modelled as `List Char`; the handful of regular
expressions appearing in the sources are implemented as explicit scanners
that reproduce the leftmost-match / global-replace semantics of the concrete
patterns used.  JS number division on vote counts is modelled exactly in `ℚ`.
Scanners that consume a variable number of characters per step take an
explicit fuel argument (so that everything computes by `decide`/`rfl`);
every such scanner consumes at least one input character per unit of fuel,
so fuel `s.length` always suffices and the `fuel = 0` fallback is never hit
when the scanner is called through its public wrapper.
-/

/-! ## JavaScript string primitives -/

/-- The JS `\s` whitespace class on code points: space, tab, LF, CR, VT, FF,
NBSP, and the Unicode space / line / paragraph separators and BOM. -/
def jsIsWsNat (n : Nat) : Bool :=
  n = 32 || n = 9 || n = 10 || n = 13 || n = 11 || n = 12 ||
  n = 0xa0 || n = 0x1680 || (0x2000 ≤ n && n ≤ 0x200a) ||
  n = 0x2028 || n = 0x2029 || n = 0x202f || n = 0x205f ||
  n = 0x3000 || n = 0xfeff

/-- The JS `\s` whitespace class (as used by `.replace(/\s+/g, " ")`,
`.trim()` and friends). -/
def jsIsWs (c : Char) : Bool := jsIsWsNat c.toNat

/-- `String.prototype.toLowerCase`, on the ASCII range (the only range the
repository's string constants use): uppercase `A`–`Z` maps to `a`–`z`,
everything else is fixed. -/
def lowerChar (c : Char) : Char :=
  if 65 ≤ c.toNat ∧ c.toNat ≤ 90 then Char.ofNat (c.toNat + 32) else c

/-- `String.prototype.trim()`: drop leading and trailing whitespace. -/
def jsTrim (s : List Char) : List Char :=
  ((s.dropWhile jsIsWs).reverse.dropWhile jsIsWs).reverse

/-- `.replace(/\s+/g, " ")`: every maximal run of whitespace becomes a single
space. -/
def collapseWs : List Char → List Char
  | [] => []
  | [c] => if jsIsWs c then [' '] else [c]
  | c :: c2 :: cs =>
    if jsIsWs c then
      if jsIsWs c2 then collapseWs (c2 :: cs)
      else ' ' :: collapseWs (c2 :: cs)
    else c :: collapseWs (c2 :: cs)

/-- The backtick character (code point 96). -/
def backtick : Char := Char.ofNat 96

/-- The three-backtick fence delimiter. -/
def tripleBk : List Char := [backtick, backtick, backtick]

/-- Split a string at the leftmost occurrence of three consecutive backticks:
`splitTriple s = some (pre, post)` when `s = pre ++ tripleBk ++ post` and
`pre` contains no triple. -/
def splitTriple : List Char → Option (List Char × List Char)
  | a :: b :: c :: rest =>
    if a = backtick ∧ b = backtick ∧ c = backtick then some ([], rest)
    else
      match splitTriple (b :: c :: rest) with
      | none => none
      | some (pre, post) => some (a :: pre, post)
  | _ => none

/-- The JS `\w` word-character class `[A-Za-z0-9_]`. -/
def isWordChar (c : Char) : Bool :=
  c.isAlpha || c.isDigit || c = '_'

/-- `.replace(/```\w*\n?/g, "")`: remove each fence together with an optional
language tag and an optional following newline. -/
def removeTWN : Nat → List Char → List Char
  | 0, s => s
  | f + 1, s =>
    match splitTriple s with
    | none => s
    | some (pre, rest) =>
      let r1 := rest.dropWhile isWordChar
      let r2 := match r1 with
        | c :: t => if c = '\n' then t else c :: t
        | [] => []
      pre ++ removeTWN f r2

/-- `.replace(/```/g, "")`: remove every triple-backtick. -/
def removeTriples : Nat → List Char → List Char
  | 0, s => s
  | f + 1, s =>
    match splitTriple s with
    | none => s
    | some (pre, rest) => pre ++ removeTriples f rest

/-- The replacement function of `canonicalizeAnswer`'s code-block rule: given
the matched block's inner text, rebuild the full match, strip fences and
language tags, trim, and wrap in `[CODE:...]`. -/
def codeBlockRepl (content : List Char) : List Char :=
  let fullMatch := tripleBk ++ content ++ tripleBk
  let s1 := removeTWN fullMatch.length fullMatch
  let s2 := removeTriples s1.length s1
  ("[CODE:").data ++ jsTrim s2 ++ [']']

/-- `.replace(/```[\s\S]*?```/g, match => ...)`: lazily matched fenced blocks,
replaced via `codeBlockRepl`; scanning continues after each match. -/
def replaceCodeBlocks : Nat → List Char → List Char
  | 0, s => s
  | f + 1, s =>
    match splitTriple s with
    | none => s
    | some (pre, rest) =>
      match splitTriple rest with
      | none => s
      | some (content, rest2) => pre ++ codeBlockRepl content ++ replaceCodeBlocks f rest2

/-- `.replace(/\*\*([^*]+)\*\*/g, "$1")` (and its `__` twin): a doubled
`mark`, one or more non-`mark` characters, a doubled `mark`; on failure the
scan advances one character, exactly as the regex engine does (the `[^*]+`
group cannot backtrack across a `mark`). -/
def stripDouble (mark : Char) : Nat → List Char → List Char
  | 0, s => s
  | _ + 1, [] => []
  | f + 1, c :: cs =>
    if c = mark then
      match cs with
      | c2 :: cs2 =>
        if c2 = mark then
          let content := cs2.takeWhile (fun x => x ≠ mark)
          let rest := cs2.dropWhile (fun x => x ≠ mark)
          match content, rest with
          | _ :: _, r1 :: r2 :: rrest =>
            if r1 = mark ∧ r2 = mark then content ++ stripDouble mark f rrest
            else c :: stripDouble mark f cs
          | _, _ => c :: stripDouble mark f cs
        else c :: stripDouble mark f cs
      | [] => [c]
    else c :: stripDouble mark f cs

/-- `.replace(/\*([^*]+)\*/g, "$1")` (and its `_` twin): a `mark`, one or
more non-`mark` characters, a `mark`; on failure the scan advances one
character. -/
def stripSingle (mark : Char) : Nat → List Char → List Char
  | 0, s => s
  | _ + 1, [] => []
  | f + 1, c :: cs =>
    if c = mark then
      let content := cs.takeWhile (fun x => x ≠ mark)
      let rest := cs.dropWhile (fun x => x ≠ mark)
      match content, rest with
      | _ :: _, r1 :: rrest =>
        if r1 = mark then content ++ stripSingle mark f rrest
        else c :: stripSingle mark f cs
      | _, _ => c :: stripSingle mark f cs
    else c :: stripSingle mark f cs

/-- `canonicalizeAnswer` from the consensus module: replace fenced code
blocks by `[CODE:...]`, collapse whitespace, trim, lowercase, then strip
`**`, `__`, `*`, `_` emphasis markers, in that order. -/
def canonicalizeAnswer (answer : List Char) : List Char :=
  let s0 := replaceCodeBlocks answer.length answer
  let s1 := (jsTrim (collapseWs s0)).map lowerChar
  let s2 := stripDouble '*' s1.length s1
  let s3 := stripDouble '_' s2.length s2
  let s4 := stripSingle '*' s3.length s3
  stripSingle '_' s4.length s4

/-! ## Task router (`TaskRouter.classifyTask`) -/

/-- `String.prototype.includes`: `needle` occurs as a contiguous substring of
`hay` (the empty needle always occurs). -/
def strContains : List Char → List Char → Bool
  | [], needle => needle.isEmpty
  | c :: t, needle => List.isPrefixOf needle (c :: t) || strContains t needle

/-- The repository's task types. -/
inductive TaskType
  | structured
  | open_ended
deriving DecidableEq, Repr

namespace TaskRouter

/-- `STRUCTURED_KEYWORDS` from the task router. -/
def structuredKeywords : List (List Char) :=
  ["calculate", "compute", "solve", "what is", "how many", "how much",
   "find the", "determine", "evaluate", "simplify", "factor",
   "python", "code", "program", "algorithm", "function",
   "math", "equation", "formula", "proof",
   "json", "xml", "parse", "format",
   "convert", "translate to",
   "list all", "enumerate", "count",
   "true or false", "yes or no",
   "regex", "pattern match"].map String.data

/-- `OPEN_ENDED_KEYWORDS` from the task router. -/
def openEndedKeywords : List (List Char) :=
  ["explain", "describe", "discuss", "analyze", "compare",
   "what do you think", "opinion", "perspective",
   "summarize", "overview", "introduction",
   "how would you", "suggest", "recommend",
   "creative", "story", "poem", "essay",
   "brainstorm", "ideas for", "ways to",
   "pros and cons", "advantages", "disadvantages",
   "why do", "what are the reasons"].map String.data

/-- Number of keywords of `kws` occurring in `text` (each keyword counted
once, as in the router's `includes` loop). -/
def keywordHits (kws : List (List Char)) (text : List Char) : Nat :=
  kws.countP (fun k => strContains text k)

/-- The final structured score of a (lowercased) text: keyword hits, plus 2
for a fenced code block, plus 1 when the text contains a digit and is shorter
than 100 characters. -/
def structuredScore (text : List Char) : Nat :=
  keywordHits structuredKeywords text
    + (if strContains text tripleBk then 2 else 0)
    + (if text.any Char.isDigit && decide (text.length < 100) then 1 else 0)

/-- The final open-ended score of a (lowercased) text: its open-ended keyword
hits. -/
def openEndedScore (text : List Char) : Nat :=
  keywordHits openEndedKeywords text

/-- `TaskRouter.classifyTask` on a string prompt: compare the final scores of
the lowercased text; on a tie, return `structured` exactly for short texts
containing a question mark. -/
def classifyTask (userPrompt : List Char) : TaskType :=
  let text := userPrompt.map lowerChar
  let s := structuredScore text
  let o := openEndedScore text
  if o < s then .structured
  else if s < o then .open_ended
  else if decide (text.length < 100) && strContains text ['?'] then .structured
  else .open_ended

end TaskRouter

/-! ## Levenshtein distance and string similarity -/

/-- One row-to-row step of the Levenshtein matrix: `levStep a b i prev j` is
`matrix[i+1][j]` of the consensus module's `levenshteinDistance`, where
`prev` is row `i`.  Out-of-range character reads (which the source never
performs at the indices it uses) default to a space. -/
def levStep (a b : List Char) (i : Nat) (prev : Nat → Nat) : Nat → Nat
  | 0 => i + 1
  | j + 1 =>
    if b.getD i ' ' = a.getD j ' ' then prev j
    else min (prev j + 1) (min (levStep a b i prev j + 1) (prev (j + 1) + 1))

/-- `levMatrix a b i j` is the matrix cell `matrix[i][j]` filled by
`levenshteinDistance(a, b)`: row 0 and column 0 are the indices, and the
interior follows the usual substitution / insertion / deletion recurrence on
`b.charAt(i-1)` vs `a.charAt(j-1)`. -/
def levMatrix (a b : List Char) : Nat → Nat → Nat
  | 0 => fun j => j
  | i + 1 => levStep a b i (levMatrix a b i)

/-- `levenshteinDistance(a, b)` returns `matrix[b.length][a.length]`. -/
def levenshteinDistance (a b : List Char) : Nat :=
  levMatrix a b b.length a.length

/-- `stringSimilarity(a, b) = 1 - d/maxLen` (and `1` for two empty strings),
with the division carried out exactly in `ℚ`. -/
def stringSimilarity (a b : List Char) : ℚ :=
  let maxLen := max a.length b.length
  if maxLen = 0 then 1 else 1 - (levenshteinDistance a b : ℚ) / maxLen

/-! ## Consensus data model (`types.ts`) -/

/-- `TokenUsage` from the providers module. -/
structure TokenUsage where
  inputTokens : Nat
  outputTokens : Nat
deriving DecidableEq, Repr

/-- `ExpertResult` from `types.ts`; optional fields are `Option`s. -/
structure ExpertResult where
  providerId : List Char
  providerName : List Char
  model : List Char
  response : List Char
  canonicalAnswer : List Char
  success : Bool
  iterations : Nat
  usage : TokenUsage
  executionOutput : Option (List Char) := none
  error : Option (List Char) := none
deriving DecidableEq, Repr

/-- `ConsensusGroup` from `types.ts`; `averageSuccess` is the exact rational
value of the JS float. -/
structure ConsensusGroup where
  canonicalAnswer : List Char
  responses : List ExpertResult
  voteCount : Nat
  averageSuccess : ℚ
deriving DecidableEq, Repr

/-- `ConsensusResult` from `types.ts`. -/
structure ConsensusResult where
  strategy : List Char
  taskType : TaskType
  winningAnswer : List Char
  winningGroup : ConsensusGroup
  allGroups : List ConsensusGroup
  totalExperts : Nat
  agreement : ℚ
  summary : List Char
deriving DecidableEq, Repr

/-! ## Group sorting (the comparator passed to `Array.prototype.sort`) -/

/-- The sort comparator of both aggregators, as the relation "`a` may appear
no later than `b`": strictly more votes first, then higher average success.
This is a total preorder, so the JS engine's stable sort is characterised by
inserting each element after everything that precedes-or-ties it. -/
def groupBefore (a b : ConsensusGroup) : Bool :=
  decide (b.voteCount < a.voteCount ∨
    (a.voteCount = b.voteCount ∧ b.averageSuccess ≤ a.averageSuccess))

/-- Stable insertion: `g` goes after every element that `groupBefore`-precedes
it (ties included, preserving the original order). -/
def insertGroup (g : ConsensusGroup) : List ConsensusGroup → List ConsensusGroup
  | [] => [g]
  | h :: t => if groupBefore h g then h :: insertGroup g t else g :: h :: t

/-- Stable insertion sort by the aggregators' comparator, modelling
`Array.prototype.sort` (stable, per the ECMAScript specification). -/
def sortGroups (l : List ConsensusGroup) : List ConsensusGroup :=
  l.foldl (fun acc g => insertGroup g acc) []

/-- `responses.filter(r => r.success).length / responses.length`, exactly. -/
def averageSuccessOf (rs : List ExpertResult) : ℚ :=
  (rs.countP (·.success) : ℚ) / rs.length

/-! ## Exact-match aggregation -/

/-- One step of the grouping loop of `ExactMatchAggregator.aggregate`: append
`r` to the entry keyed by its canonical answer, or open a new entry at the
end (JS `Map`s iterate in insertion order). -/
def addG : List (List Char × List ExpertResult) → ExpertResult → List (List Char × List ExpertResult)
  | [], r => [(r.canonicalAnswer, [r])]
  | (k, rs) :: t, r =>
    if k = r.canonicalAnswer then (k, rs ++ [r]) :: t else (k, rs) :: addG t r

/-- The grouping loop of `ExactMatchAggregator.aggregate`. -/
def groupByCanonical (results : List ExpertResult) : List (List Char × List ExpertResult) :=
  results.foldl addG []

/-- `ExactMatchAggregator.buildSummary`. -/
def buildSummaryExact (groups : List ConsensusGroup) (total : Nat) : List Char :=
  if groups.length = 1 then
    ("All ").data ++ (toString total).data ++ (" models agree on the answer.").data
  else
    match groups with
    | [] => []
    | winner :: _ =>
      let providerNames := List.intercalate ((", ").data) (winner.responses.map (·.providerName))
      if (total : ℚ) / 2 < (winner.voteCount : ℚ) then
        (toString winner.voteCount).data ++ [Char.ofNat 47] ++ (toString total).data ++
          (" models (").data ++ providerNames ++ (") agree. ").data ++
          (toString (groups.length - 1)).data ++ (" alternative answer(s) found.").data
      else
        ("No clear consensus. ").data ++ (toString groups.length).data ++
          (" different answers from ").data ++ (toString total).data ++
          (" models. Showing most common answer.").data

namespace ExactMatchAggregator

/-- `ExactMatchAggregator.aggregate`: group by canonical answer, sort by the
comparator, and report the head group.  The empty input (on which the JS code
would fault reading `consensusGroups[0].responses[0]`) yields `none`; the
`responses` of a produced group are never empty, so the inner fallback `[]`
for `winningAnswer` is unreachable. -/
def aggregate (results : List ExpertResult) (taskType : TaskType) : Option ConsensusResult :=
  let consensusGroups := sortGroups ((groupByCanonical results).map fun kv =>
    { canonicalAnswer := kv.1
      responses := kv.2
      voteCount := kv.2.length
      averageSuccess := averageSuccessOf kv.2 })
  match consensusGroups with
  | [] => none
  | winningGroup :: rest =>
    some {
      strategy := ("exact").data
      taskType := taskType
      winningAnswer := match winningGroup.responses with | r :: _ => r.response | [] => []
      winningGroup := winningGroup
      allGroups := winningGroup :: rest
      totalExperts := results.length
      agreement := (winningGroup.voteCount : ℚ) / results.length
      summary := buildSummaryExact (winningGroup :: rest) results.length }

end ExactMatchAggregator

/-! ## Semantic aggregation -/

namespace SemanticAggregator

/-- `similarityThreshold = 0.7` (exact in `ℚ`). -/
def similarityThreshold : ℚ := 7 / 10

/-- One step of the clustering loop of `SemanticAggregator.aggregate`: `r`
joins the first cluster whose representative (first member) is at least
`similarityThreshold`-similar to it, else starts a new cluster at the end.
Clusters are never empty, so the `[]`-cluster branch is unreachable. -/
def addToClusters : List (List ExpertResult) → ExpertResult → List (List ExpertResult)
  | [], r => [[r]]
  | c :: cs, r =>
    match c with
    | rep :: _ =>
      if similarityThreshold ≤ stringSimilarity r.canonicalAnswer rep.canonicalAnswer
      then (c ++ [r]) :: cs
      else c :: addToClusters cs r
    | [] => [] :: addToClusters cs r

/-- The `reduce` choosing each cluster's `bestResult`: a successful candidate
replaces a failed accumulator; otherwise strictly greater response length
wins.  `none` only on the empty cluster, which never occurs. -/
def bestResultOf : List ExpertResult → Option ExpertResult
  | [] => none
  | h :: t =>
    some (t.foldl (fun best curr =>
      if curr.success && !best.success then curr
      else if best.response.length < curr.response.length then curr
      else best) h)

/-- The `reduce` choosing `bestResponse` inside the winning group: strictly
greater response length wins, nothing else is consulted. -/
def longestOf : List ExpertResult → Option ExpertResult
  | [] => none
  | h :: t =>
    some (t.foldl (fun best curr =>
      if best.response.length < curr.response.length then curr else best) h)

/-- `SemanticAggregator.buildSummary`. -/
def buildSummary (groups : List ConsensusGroup) (total : Nat) : List Char :=
  if groups.length = 1 then
    ("All ").data ++ (toString total).data ++
      (" models provided semantically similar answers.").data
  else
    match groups with
    | [] => []
    | winner :: _ =>
      let providerNames := List.intercalate ((", ").data) (winner.responses.map (·.providerName))
      if (total : ℚ) / 2 < (winner.voteCount : ℚ) then
        (toString winner.voteCount).data ++ [Char.ofNat 47] ++ (toString total).data ++
          (" models (").data ++ providerNames ++
          (") gave similar answers. Synthesized best response from cluster.").data
      else
        ("Diverse perspectives from ").data ++ (toString total).data ++
          (" models across ").data ++ (toString groups.length).data ++
          (" clusters. Showing most supported viewpoint.").data

/-- `SemanticAggregator.aggregate`: cluster by similarity to representatives,
build groups (whose `canonicalAnswer` comes from the success-then-length
`bestResult` reduce), sort, and answer with the plain longest response of the
winning cluster. -/
def aggregate (results : List ExpertResult) (taskType : TaskType) : Option ConsensusResult :=
  let clusters := results.foldl addToClusters []
  let consensusGroups := sortGroups (clusters.map fun cluster =>
    { canonicalAnswer := match bestResultOf cluster with | some b => b.canonicalAnswer | none => []
      responses := cluster
      voteCount := cluster.length
      averageSuccess := averageSuccessOf cluster })
  match consensusGroups with
  | [] => none
  | winningGroup :: rest =>
    some {
      strategy := ("semantic").data
      taskType := taskType
      winningAnswer := match longestOf winningGroup.responses with | some b => b.response | none => []
      winningGroup := winningGroup
      allGroups := winningGroup :: rest
      totalExperts := results.length
      agreement := (winningGroup.voteCount : ℚ) / results.length
      summary := buildSummary (winningGroup :: rest) results.length }

end SemanticAggregator

/-! ## Expert runner (`expertRunner.ts`) -/

/-- `.replace(/```[\s\S]*?```/g, "")` as used by `formatSuccessResponse`:
delete each lazily matched fenced block. -/
def removeCodeBlocks : Nat → List Char → List Char
  | 0, s => s
  | f + 1, s =>
    match splitTriple s with
    | none => s
    | some (pre, rest) =>
      match splitTriple rest with
      | none => s
      | some (_, rest2) => pre ++ removeCodeBlocks f rest2

namespace ExpertRunner

/-- `ExpertRunner.formatSuccessResponse`: the response with code blocks
removed and trimmed, then the execution output in a `**Result:**` fence. -/
def formatSuccessResponse (response executionOutput : List Char) : List Char :=
  let explanationText := jsTrim (removeCodeBlocks response.length response)
  if explanationText.isEmpty then
    ("**Result:**\n```\n").data ++ executionOutput ++ ("\n```").data
  else
    explanationText ++ ("\n\n**Result:**\n```\n").data ++ executionOutput ++ ("\n```").data

/-- The `close`-event handler of `ExpertRunner.executePython`, as a function
of the child's exit code and its accumulated stdout / stderr: exit code 0
succeeds with trimmed stdout plus a `[stderr]:` section when trimmed stderr
is non-empty (or a placeholder when the combination is empty); a nonzero exit
code fails with trimmed stderr, or a generic message when that is empty. -/
def executePythonClose (exitCode : Int) (stdout stderr : List Char) : Bool × List Char :=
  if exitCode = 0 then
    let e := jsTrim stderr
    let output := jsTrim stdout ++ (if e.isEmpty then [] else ("\n[stderr]: ").data ++ e)
    (true, if output.isEmpty then ("Code executed successfully (no output)").data else output)
  else
    let e := jsTrim stderr
    (false, if e.isEmpty then ("Process exited with code ").data ++ (toString exitCode).data else e)

/-- What the environment (LLM provider plus Python sandbox) does on one
attempt of `ExpertRunner.run`: the provider stream throws, or returns a
response with no code block, or the extracted code executes and fails, or
executes and succeeds. -/
inductive AttemptOutcome
  | apiError (message : List Char)
  | noCode (response : List Char) (usage : TokenUsage)
  | execFail (response : List Char) (usage : TokenUsage) (output : List Char)
  | execOk (response : List Char) (usage : TokenUsage) (output : List Char)
deriving DecidableEq, Repr

/-- The mutable locals of `ExpertRunner.run`'s retry loop. -/
structure RunState where
  attempts : Nat
  solved : Bool
  finalResponse : List Char
  executionOutput : List Char
  lastError : List Char
  usage : TokenUsage
deriving DecidableEq, Repr

/-- Pointwise accumulation of token usage. -/
def addUsage (u v : TokenUsage) : TokenUsage :=
  ⟨u.inputTokens + v.inputTokens, u.outputTokens + v.outputTokens⟩

/-- The `while (attempts < maxAttempts && !solved)` loop of
`ExpertRunner.run`, driven by the stream `outcomes` of environment
behaviours (indexed by the attempt number); the fuel is the number of
remaining permitted attempts.  An API error records the message as the last
error and accumulates no usage; a missing code block only re-prompts; a
failed execution records its output as the last error; a successful
execution sets `solved` with the response and output. -/
def runLoop (outcomes : Nat → AttemptOutcome) : Nat → RunState → RunState
  | 0, st => st
  | f + 1, st =>
    if st.solved then st
    else
      let a := st.attempts + 1
      match outcomes a with
      | .apiError msg =>
        runLoop outcomes f { st with attempts := a, lastError := msg }
      | .noCode _ u =>
        runLoop outcomes f { st with attempts := a, usage := addUsage st.usage u }
      | .execFail _ u out =>
        runLoop outcomes f { st with attempts := a, usage := addUsage st.usage u, lastError := out }
      | .execOk resp u out =>
        runLoop outcomes f
          { st with attempts := a, usage := addUsage st.usage u, solved := true,
                    finalResponse := resp, executionOutput := out }

/-- `config.maxRetries || 5`: the retry bound is `maxRetries` when it is a
positive number, and 5 when it is absent or 0 (both falsy in JS). -/
def maxAttemptsOf (maxRetries : Option Nat) : Nat :=
  match maxRetries with
  | some m => if m = 0 then 5 else m
  | none => 5

/-- `ExpertRunner.run`: run the retry loop from the initial state and package
the final locals into an `ExpertResult` (provider and sandbox errors have
been converted into data by the loop, so this is a total function). -/
def run (providerId providerName model : List Char) (maxRetries : Option Nat)
    (outcomes : Nat → AttemptOutcome) : ExpertResult :=
  let maxAttempts := maxAttemptsOf maxRetries
  let final := runLoop outcomes maxAttempts ⟨0, false, [], [], [], ⟨0, 0⟩⟩
  { providerId := providerId
    providerName := providerName
    model := model
    response := if final.solved then formatSuccessResponse final.finalResponse final.executionOutput
                else final.finalResponse
    canonicalAnswer := if final.solved then canonicalizeAnswer final.executionOutput
                       else canonicalizeAnswer
                         (if final.finalResponse.isEmpty then final.lastError else final.finalResponse)
    success := final.solved
    iterations := final.attempts
    usage := final.usage
    executionOutput := if final.solved then some final.executionOutput else none
    error := if final.solved then none else some final.lastError }

end ExpertRunner

/-! ## Orchestrator dispatch (`storage.ts`) -/

/-- `ProviderConfig` from the providers module (the fields the dispatch
reads). -/
structure ProviderConfig where
  id : List Char
  name : List Char
  enabled : Bool
  model : List Char
deriving DecidableEq, Repr

/-- The observable start of a `solveTask` / `solveQuantTask` generator run:
either it synchronously emits the given text fragments and reasoning-step
events and returns, or it continues into one of the provider-driven
pipelines (whose behaviour depends on network and sandbox I/O and is
abstracted here by the pipeline's name). -/
inductive SolveBehavior
  | emits (fragments : List (List Char)) (reasoningSteps : Nat)
  | continues (pipeline : List Char)
deriving DecidableEq, Repr

/-- The terminal message yielded when no provider is enabled. -/
def noProvidersMessage : List Char :=
  ("Error: No LLM providers enabled. Please enable at least one provider in settings.").data

namespace PoetiqOrchestrator

/-- The quant-task keyword set of `PoetiqOrchestrator.isQuantTask`. -/
def quantKeywords : List (List Char) :=
  ["tradingview", "pine script", "pinescript", "strategy", "backtest", "indicator"].map
    String.data

/-- `PoetiqOrchestrator.isQuantTask` on a string prompt: some quant keyword
occurs in the lowercased text. -/
def isQuantTask (userPrompt : List Char) : Bool :=
  quantKeywords.any (fun k => strContains (userPrompt.map lowerChar) k)

/-- `PoetiqOrchestrator.solveQuantTask`, up to its provider-count dispatch:
with zero enabled providers it yields exactly the no-providers message (and
emits no reasoning step before that check); otherwise it continues into the
single- or multi-provider quant pipeline. -/
def solveQuantTask (providers : List ProviderConfig) : SolveBehavior :=
  let enabledProviders := providers.filter (·.enabled)
  if enabledProviders.length = 0 then .emits [noProvidersMessage] 0
  else if enabledProviders.length = 1 then .continues (("solveQuantTaskSingleProvider").data)
  else .continues (("quantMultiProviderPipeline").data)

/-- `PoetiqOrchestrator.solveTask`, up to its provider-count dispatch: quant
prompts are forwarded to `solveQuantTask` (which re-checks the provider
count); otherwise zero enabled providers yield exactly the no-providers
message, and one or more continue into the solver pipelines. -/
def solveTask (userPrompt : List Char) (providers : List ProviderConfig) : SolveBehavior :=
  if isQuantTask userPrompt then solveQuantTask providers
  else
    let enabledProviders := providers.filter (·.enabled)
    if enabledProviders.length = 0 then .emits [noProvidersMessage] 0
    else if enabledProviders.length = 1 then .continues (("solveSingleProvider").data)
    else .continues (("solveMultiProvider").data)

end PoetiqOrchestrator

/-- A string free of the three marker characters (`*`, `_`, backtick) that
drive `canonicalizeAnswer`'s code-block and emphasis rewriting. -/
def markerFree (s : List Char) : Bool :=
  s.all fun c => !(c = '*' || c = '_' || c = backtick)

/-- A zero token usage, for concrete test fixtures. -/
def sampleUsage : TokenUsage := ⟨0, 0⟩

/-- Fixture: a successful expert with a short response. -/
def sampleSuccess : ExpertResult :=
  { providerId := ("p1").data, providerName := ("Alpha").data, model := ("m1").data,
    response := ("ok").data, canonicalAnswer := ("x").data, success := true,
    iterations := 1, usage := sampleUsage }

/-- Fixture: a failed expert with a longer response and the same canonical
answer as `sampleSuccess`. -/
def sampleFailure : ExpertResult :=
  { providerId := ("p2").data, providerName := ("Beta").data, model := ("m2").data,
    response := ("a much longer failing answer").data, canonicalAnswer := ("x").data,
    success := false, iterations := 1, usage := sampleUsage }

/-! ## Theorems

Each claim `Cn` of the specification gets exactly one theorem below (plus a
counterexample and/or witness where required). -/

/-- C7: with zero enabled providers, `solveTask` yields exactly one text
fragment — the fixed no-providers error message — emits no `ReasoningStep`
events, and never throws (the embedding is a total function); this includes
prompts matching the quant-task keyword set, whose pipeline performs the
same zero-provider check before doing anything else. -/
theorem solveTask_no_providers (userPrompt : List Char) (providers : List ProviderConfig)
    (h : providers.filter (·.enabled) = []) :
    PoetiqOrchestrator.solveTask userPrompt providers =
      SolveBehavior.emits [noProvidersMessage] 0 := by
  unfold PoetiqOrchestrator.solveTask PoetiqOrchestrator.solveQuantTask
  simp [h]

/-- Witness for C7 at a concrete quant-keyword prompt and a single disabled
provider. -/
theorem solveTask_no_providers_witness :
    ([⟨("openai").data, ("OpenAI").data, false, ("gpt-5").data⟩] :
        List ProviderConfig).filter (·.enabled) = [] ∧
    PoetiqOrchestrator.solveTask (("backtest my strategy").data)
        [⟨("openai").data, ("OpenAI").data, false, ("gpt-5").data⟩] =
      SolveBehavior.emits [noProvidersMessage] 0 :=
  ⟨by decide,
   solveTask_no_providers (("backtest my strategy").data)
     [⟨("openai").data, ("OpenAI").data, false, ("gpt-5").data⟩] (by decide)⟩

/-- C6: the Python sandbox's `close` handler: exit code 0 resolves with
success and the combined output — trimmed stdout, with trimmed stderr
appended under a `[stderr]:` marker when non-empty, or the placeholder when
both are empty — and a nonzero exit code resolves with failure and the
trimmed stderr, or the `Process exited with code N` message when the trimmed
stderr is empty. -/
theorem executePython_close_spec (exitCode : Int) (stdout stderr : List Char) :
    (exitCode = 0 →
      ExpertRunner.executePythonClose exitCode stdout stderr =
        (true,
          if jsTrim stdout = [] ∧ jsTrim stderr = [] then
            ("Code executed successfully (no output)").data
          else
            jsTrim stdout ++
              (if jsTrim stderr = [] then []
               else ("\n[stderr]: ").data ++ jsTrim stderr))) ∧
    (exitCode ≠ 0 →
      ExpertRunner.executePythonClose exitCode stdout stderr =
        (false,
          if jsTrim stderr = [] then
            ("Process exited with code ").data ++ (toString exitCode).data
          else jsTrim stderr)) := by
  constructor
  · intro h
    subst h
    unfold ExpertRunner.executePythonClose
    by_cases he : jsTrim stderr = [] <;> by_cases ho : jsTrim stdout = [] <;>
      simp [he, ho, List.isEmpty_iff]
  · intro h
    unfold ExpertRunner.executePythonClose
    rw [if_neg h]
    by_cases he : jsTrim stderr = [] <;> simp [he, List.isEmpty_iff]

/-- Witness for C6: a clean run with output, and a failing run with
whitespace-padded stderr. -/
theorem executePython_close_witness :
    ExpertRunner.executePythonClose 0 (("hi").data) [] = (true, ("hi").data) ∧
    ExpertRunner.executePythonClose 3 [] ((" boom ").data) = (false, ("boom").data) := by
  constructor
  · exact ((executePython_close_spec 0 (("hi").data) []).1 rfl).trans (by decide)
  · exact ((executePython_close_spec 3 [] ((" boom ").data)).2 (by decide)).trans (by decide)

/-- Counterexample for C3: this prompt contains a fenced code block, yet
three open-ended keyword hits outvote the +2 structural bonus and the task
classifies as open-ended. -/
theorem classifyTask_codeblock_counterexample :
    strContains ((("explain describe discuss ```").data).map lowerChar) tripleBk = true ∧
    TaskRouter.classifyTask (("explain describe discuss ```").data) = TaskType.open_ended := by
  decide

/-- C3 (amended): a prompt containing a fenced code block classifies as
`structured` provided its open-ended keyword hits number at most one more
than its structured keyword hits (the +2 code-block weight then dominates);
with three or more surplus open-ended hits the override can lose. -/
theorem classifyTask_codeblock (userPrompt : List Char)
    (hcb : strContains (userPrompt.map lowerChar) tripleBk = true)
    (hkw : TaskRouter.openEndedScore (userPrompt.map lowerChar) ≤
      TaskRouter.keywordHits TaskRouter.structuredKeywords (userPrompt.map lowerChar) + 1) :
    TaskRouter.classifyTask userPrompt = TaskType.structured := by
  have hs : TaskRouter.openEndedScore (userPrompt.map lowerChar) <
      TaskRouter.structuredScore (userPrompt.map lowerChar) := by
    unfold TaskRouter.structuredScore
    rw [hcb, if_pos rfl]
    split <;> omega
  unfold TaskRouter.classifyTask
  simp [hs]

/-- Witness for C3 (amended) on a bare code-block prompt. -/
theorem classifyTask_codeblock_witness :
    TaskRouter.classifyTask (("```x = 1```").data) = TaskType.structured :=
  classifyTask_codeblock (("```x = 1```").data) (by decide) (by decide)

/-- Counterexample for C4: a tied short prompt whose only question mark sits
mid-text (it does not end with one) still classifies as `structured`. -/
theorem classifyTask_tie_counterexample :
    TaskRouter.structuredScore ((("z? b").data).map lowerChar) =
      TaskRouter.openEndedScore ((("z? b").data).map lowerChar) ∧
    ((("z? b").data).map lowerChar).length < 100 ∧
    ((("z? b").data).map lowerChar).getLast? ≠ some '?' ∧
    TaskRouter.classifyTask (("z? b").data) = TaskType.structured := by
  decide

/-- C4 (amended): on a tie of the final scores, `classifyTask` returns
`structured` exactly when the lowercased text is shorter than 100 characters
and contains a question mark anywhere (the code tests `includes("?")`, not
that the text ends with one), and `open_ended` otherwise. -/
theorem classifyTask_tie (userPrompt : List Char)
    (h : TaskRouter.structuredScore (userPrompt.map lowerChar) =
      TaskRouter.openEndedScore (userPrompt.map lowerChar)) :
    TaskRouter.classifyTask userPrompt = TaskType.structured ↔
      ((userPrompt.map lowerChar).length < 100 ∧
        strContains (userPrompt.map lowerChar) ['?'] = true) := by
  simp only [TaskRouter.classifyTask]
  rw [h, if_neg (lt_irrefl _), if_neg (lt_irrefl _)]
  by_cases hshort : (userPrompt.map lowerChar).length < 100 <;>
    by_cases hq : strContains (userPrompt.map lowerChar) ['?'] = true <;>
      simp [hshort, hq]

/-- Witness for C4 (amended) on a tied short prompt ending in a question
mark. -/
theorem classifyTask_tie_witness :
    TaskRouter.classifyTask (("ok?").data) = TaskType.structured :=
  (classifyTask_tie (("ok?").data) (by decide)).mpr (by decide)

/-- Counterexample for C2: stripping `*...*` emphasis around a spaced phrase
leaves doubled interior whitespace, which a second canonicalization pass
collapses, so `canonicalizeAnswer` is not idempotent. -/
theorem canonicalizeAnswer_not_idempotent :
    canonicalizeAnswer (canonicalizeAnswer (("a * b * c").data)) ≠
      canonicalizeAnswer (("a * b * c").data) := by
  decide

/-! ### Helper lemmas for canonicalization idempotence -/

theorem dropWhile_head_false (p : Char → Bool) (l t : List Char) (c : Char)
    (h : l.dropWhile p = c :: t) : p c = false := by
  induction l with
  | nil => simp at h
  | cons a as ih =>
    rw [List.dropWhile_cons] at h
    by_cases hp : p a
    · exact ih (by simpa [hp] using h)
    · simp [hp] at h
      simp [← h.1, Bool.of_not_eq_true hp]

theorem dropWhile_eq_self_of_head (p : Char → Bool) (l : List Char)
    (h : ∀ c t, l = c :: t → p c = false) : l.dropWhile p = l := by
  cases l with
  | nil => rfl
  | cons a as => rw [List.dropWhile_cons, h a as rfl]; simp

theorem toNat_ofNat_valid (n : Nat) (h : n.isValidChar) : (Char.ofNat n).toNat = n := by
  simp [Char.ofNat, h, Char.toNat, Char.ofNatAux, UInt32.toNat, BitVec.toNat_ofNatLt]

theorem lowerChar_toNat (c : Char) :
    (lowerChar c).toNat =
      if 65 ≤ c.toNat ∧ c.toNat ≤ 90 then c.toNat + 32 else c.toNat := by
  by_cases h : 65 ≤ c.toNat ∧ c.toNat ≤ 90
  · rw [lowerChar, if_pos h, if_pos h, toNat_ofNat_valid]
    exact Or.inl (by omega)
  · rw [lowerChar, if_neg h, if_neg h]

theorem jsIsWsNat_false_mid (n : Nat) (h1 : 33 ≤ n) (h2 : n ≤ 126) : jsIsWsNat n = false := by
  simp only [jsIsWsNat, Bool.or_eq_false_iff, Bool.and_eq_false_iff,
    decide_eq_false_iff_not]
  omega

theorem jsIsWs_lowerChar (c : Char) : jsIsWs (lowerChar c) = jsIsWs c := by
  unfold jsIsWs
  rw [lowerChar_toNat]
  by_cases h : 65 ≤ c.toNat ∧ c.toNat ≤ 90
  · rw [if_pos h, jsIsWsNat_false_mid _ (by omega) (by omega),
      jsIsWsNat_false_mid _ (by omega) (by omega)]
  · rw [if_neg h]

theorem lowerChar_marker_free (d : Char) (h1 : d ≠ '*') (h2 : d ≠ '_') (h3 : d ≠ backtick) :
    lowerChar d ≠ '*' ∧ lowerChar d ≠ '_' ∧ lowerChar d ≠ backtick := by
  by_cases h : 65 ≤ d.toNat ∧ d.toNat ≤ 90
  · have ht : (lowerChar d).toNat = d.toNat + 32 := by rw [lowerChar_toNat, if_pos h]
    have hstar : ('*').toNat = 42 := rfl
    have hund : ('_').toNat = 95 := rfl
    have hbk : backtick.toNat = 96 := by decide
    refine ⟨fun he => ?_, fun he => ?_, fun he => ?_⟩ <;>
      rw [he] at ht <;> omega
  · have he : lowerChar d = d := by rw [lowerChar, if_neg h]
    rw [he]
    exact ⟨h1, h2, h3⟩

theorem lowerChar_idem (c : Char) : lowerChar (lowerChar c) = lowerChar c := by
  by_cases h : 65 ≤ c.toNat ∧ c.toNat ≤ 90
  · have ht : (lowerChar c).toNat = c.toNat + 32 := by rw [lowerChar_toNat, if_pos h]
    have hno : ¬(65 ≤ (lowerChar c).toNat ∧ (lowerChar c).toNat ≤ 90) := by omega
    rw [lowerChar, if_neg hno]
  · have he : lowerChar c = c := by rw [lowerChar, if_neg h]
    rw [he, he]

theorem map_lowerChar_idem (l : List Char) :
    (l.map lowerChar).map lowerChar = l.map lowerChar := by
  rw [List.map_map]
  exact List.map_congr_left fun a _ => lowerChar_idem a

theorem collapseWs_cons_of_neg (c : Char) (cs : List Char) (h : jsIsWs c = false) :
    collapseWs (c :: cs) = c :: collapseWs cs := by
  cases cs <;> simp [collapseWs, h]

theorem collapseWs_mem (s : List Char) :
    ∀ c ∈ collapseWs s, (jsIsWs c = true → c = ' ') ∧ (c = ' ' ∨ c ∈ s) := by
  induction s using collapseWs.induct with
  | case1 => simp [collapseWs]
  | case2 c h => simp [collapseWs, h]
  | case3 c h =>
    rw [collapseWs, if_neg h]
    intro x hx
    rcases List.mem_singleton.mp hx with rfl
    exact ⟨fun hw => absurd hw h, Or.inr (by simp)⟩
  | case4 c c2 cs h1 h2 ih =>
    rw [collapseWs, if_pos h1, if_pos h2]
    intro x hx
    rcases ih x hx with ⟨hw, hm⟩
    exact ⟨hw, by rcases hm with hm | hm <;> simp [hm]⟩
  | case5 c c2 cs h1 h2 ih =>
    rw [collapseWs, if_pos h1, if_neg h2]
    intro x hx
    rcases List.mem_cons.mp hx with hx | hx
    · simp [hx]
    · rcases ih x hx with ⟨hw, hm⟩
      exact ⟨hw, by rcases hm with hm | hm <;> simp [hm]⟩
  | case6 c c2 cs h1 ih =>
    rw [collapseWs, if_neg h1]
    intro x hx
    rcases List.mem_cons.mp hx with hx | hx
    · subst hx
      exact ⟨fun hw => absurd hw h1, Or.inr (by simp)⟩
    · rcases ih x hx with ⟨hw, hm⟩
      exact ⟨hw, by rcases hm with hm | hm <;> simp [hm]⟩

theorem collapseWs_chain (s : List Char) :
    List.Chain' (fun a b => jsIsWs a = false ∨ jsIsWs b = false) (collapseWs s) := by
  induction s using collapseWs.induct with
  | case1 => simp [collapseWs]
  | case2 c h => simp [collapseWs, h]
  | case3 c h => rw [collapseWs, if_neg h]; simp
  | case4 c c2 cs h1 h2 ih => rw [collapseWs, if_pos h1, if_pos h2]; exact ih
  | case5 c c2 cs h1 h2 ih =>
    rw [collapseWs, if_pos h1, if_neg h2, collapseWs_cons_of_neg c2 cs
      (Bool.of_not_eq_true h2)]
    rw [collapseWs_cons_of_neg c2 cs (Bool.of_not_eq_true h2)] at ih
    exact List.Chain'.cons (Or.inr (Bool.of_not_eq_true h2)) ih
  | case6 c c2 cs h1 ih =>
    rw [collapseWs, if_neg h1]
    exact List.chain'_cons'.mpr ⟨fun y _ => Or.inl (Bool.of_not_eq_true h1), ih⟩

theorem collapseWs_eq_self (s : List Char)
    (hsp : ∀ c ∈ s, jsIsWs c = true → c = ' ')
    (hch : List.Chain' (fun a b => jsIsWs a = false ∨ jsIsWs b = false) s) :
    collapseWs s = s := by
  induction s using collapseWs.induct with
  | case1 => rfl
  | case2 c h => rw [collapseWs, if_pos h, hsp c (by simp) h]
  | case3 c h => rw [collapseWs, if_neg h]
  | case4 c c2 cs h1 h2 ih =>
    exact absurd (List.chain'_cons.mp hch).1 (by simp [h1, h2])
  | case5 c c2 cs h1 h2 ih =>
    rw [collapseWs, if_pos h1, if_neg h2, hsp c (by simp) h1,
      ih (fun x hx hw => hsp x (by simp [hx]) hw) (List.chain'_cons.mp hch).2]
  | case6 c c2 cs h1 ih =>
    rw [collapseWs, if_neg h1,
      ih (fun x hx hw => hsp x (by simp [hx]) hw) (List.chain'_cons.mp hch).2]

theorem jsTrim_eq_self (s : List Char)
    (hh : ∀ c t, s = c :: t → jsIsWs c = false)
    (hl : ∀ c t, s.reverse = c :: t → jsIsWs c = false) :
    jsTrim s = s := by
  unfold jsTrim
  rw [dropWhile_eq_self_of_head _ _ hh, dropWhile_eq_self_of_head _ _ hl,
    List.reverse_reverse]

theorem jsTrim_prefix_dropWhile (s : List Char) :
    jsTrim s <+: s.dropWhile jsIsWs := by
  unfold jsTrim
  have h2 := (List.dropWhile_suffix (l := (s.dropWhile jsIsWs).reverse) jsIsWs).reverse
  rwa [List.reverse_reverse] at h2

theorem jsTrim_within (s : List Char) : jsTrim s <:+: s := by
  obtain ⟨u, hu⟩ := jsTrim_prefix_dropWhile s
  obtain ⟨v, hv⟩ := List.dropWhile_suffix (l := s) jsIsWs
  exact ⟨v, u, by rw [List.append_assoc, hu, hv]⟩

theorem chain_within {R : Char → Char → Prop} {l₁ l₂ : List Char}
    (hc : List.Chain' R l₂) (h : l₁ <:+: l₂) : List.Chain' R l₁ :=
  List.Chain'.infix hc h

theorem jsTrim_head_not_ws (s : List Char) (c : Char) (t : List Char)
    (h : jsTrim s = c :: t) : jsIsWs c = false := by
  obtain ⟨u, hu⟩ := jsTrim_prefix_dropWhile s
  rw [h] at hu
  exact dropWhile_head_false jsIsWs s (t ++ u) c hu.symm

theorem jsTrim_last_not_ws (s : List Char) (c : Char) (t : List Char)
    (h : (jsTrim s).reverse = c :: t) : jsIsWs c = false := by
  unfold jsTrim at h
  rw [List.reverse_reverse] at h
  exact dropWhile_head_false jsIsWs _ t c h

theorem splitTriple_eq_none (s : List Char) (h : ∀ c ∈ s, c ≠ backtick) :
    splitTriple s = none := by
  induction s using splitTriple.induct with
  | case1 a b c rest h3 =>
    exact absurd h3.1 (h a (by simp))
  | case2 a b c rest h3 hnone ih =>
    rw [splitTriple, if_neg h3, hnone]
  | case3 a b c rest h3 pre post hsplit ih =>
    exact absurd (ih (fun x hx => h x (by simp [hx]))) (by simp [hsplit])
  | case4 t h4 => cases t with
    | nil => rfl
    | cons a u => cases u with
      | nil => rfl
      | cons b v => cases v with
        | nil => rfl
        | cons c rest => exact (h4 a b c rest rfl).elim

theorem replaceCodeBlocks_of_none (f : Nat) (s : List Char) (h : splitTriple s = none) :
    replaceCodeBlocks f s = s := by
  cases f <;> simp [replaceCodeBlocks, h]

theorem stripDouble_of_no_mark (mark : Char) :
    ∀ (f : Nat) (s : List Char), (∀ c ∈ s, c ≠ mark) → stripDouble mark f s = s := by
  intro f
  induction f with
  | zero => intro s _; rfl
  | succ f ih =>
    intro s h
    cases s with
    | nil => rfl
    | cons c cs =>
      have hc : c ≠ mark := h c (by simp)
      show stripDouble mark (f + 1) (c :: cs) = c :: cs
      conv_lhs => rw [stripDouble.eq_def]
      dsimp only
      rw [if_neg hc, ih cs (fun x hx => h x (by simp [hx]))]

theorem stripSingle_of_no_mark (mark : Char) :
    ∀ (f : Nat) (s : List Char), (∀ c ∈ s, c ≠ mark) → stripSingle mark f s = s := by
  intro f
  induction f with
  | zero => intro s _; rfl
  | succ f ih =>
    intro s h
    cases s with
    | nil => rfl
    | cons c cs =>
      have hc : c ≠ mark := h c (by simp)
      show stripSingle mark (f + 1) (c :: cs) = c :: cs
      conv_lhs => rw [stripSingle.eq_def]
      dsimp only
      rw [if_neg hc, ih cs (fun x hx => h x (by simp [hx]))]

theorem markerFree_forall (s : List Char) (h : markerFree s = true) :
    ∀ c ∈ s, c ≠ '*' ∧ c ≠ '_' ∧ c ≠ backtick := by
  intro c hc
  have hcp := List.all_eq_true.mp h c hc
  simp only [Bool.not_eq_eq_eq_not, Bool.not_true, Bool.or_eq_false_iff,
    decide_eq_false_iff_not] at hcp
  exact ⟨hcp.1.1, hcp.1.2, hcp.2⟩

theorem markerFree_canonList (s : List Char) (h : markerFree s = true) :
    ∀ x ∈ (jsTrim (collapseWs s)).map lowerChar,
      (x ≠ '*' ∧ x ≠ '_' ∧ x ≠ backtick) ∧ (jsIsWs x = true → x = ' ') := by
  have hzmem : ∀ d ∈ jsTrim (collapseWs s),
      (d ≠ '*' ∧ d ≠ '_' ∧ d ≠ backtick) ∧ (jsIsWs d = true → d = ' ') := by
    intro d hd
    have hdc : d ∈ collapseWs s := (jsTrim_within (collapseWs s)).subset hd
    rcases collapseWs_mem s d hdc with ⟨hw, hsp⟩
    refine ⟨?_, hw⟩
    rcases hsp with rfl | hds
    · exact ⟨by decide, by decide, by decide⟩
    · exact markerFree_forall s h d hds
  intro x hx
  rcases List.mem_map.mp hx with ⟨d, hd, rfl⟩
  rcases hzmem d hd with ⟨⟨h1, h2, h3⟩, hw⟩
  refine ⟨lowerChar_marker_free d h1 h2 h3, fun hlw => ?_⟩
  have hwd : jsIsWs d = true := by rw [← jsIsWs_lowerChar]; exact hlw
  rw [hw hwd]
  decide

theorem canonicalizeAnswer_markerFree_eq (s : List Char) (h : markerFree s = true) :
    canonicalizeAnswer s = (jsTrim (collapseWs s)).map lowerChar := by
  have hymem := markerFree_canonList s h
  simp only [canonicalizeAnswer]
  rw [replaceCodeBlocks_of_none _ _
      (splitTriple_eq_none s (fun c hc => (markerFree_forall s h c hc).2.2)),
    stripDouble_of_no_mark '*' _ _ (fun c hc => (hymem c hc).1.1),
    stripDouble_of_no_mark '_' _ _ (fun c hc => (hymem c hc).1.2.1),
    stripSingle_of_no_mark '*' _ _ (fun c hc => (hymem c hc).1.1),
    stripSingle_of_no_mark '_' _ _ (fun c hc => (hymem c hc).1.2.1)]

theorem collapseWs_canonList (s : List Char) (h : markerFree s = true) :
    collapseWs ((jsTrim (collapseWs s)).map lowerChar) =
      (jsTrim (collapseWs s)).map lowerChar := by
  have hchain_y : List.Chain' (fun a b => jsIsWs a = false ∨ jsIsWs b = false)
      ((jsTrim (collapseWs s)).map lowerChar) := by
    rw [List.chain'_map]
    refine List.Chain'.imp ?_ (chain_within (collapseWs_chain s) (jsTrim_within (collapseWs s)))
    intro a b hab
    rw [jsIsWs_lowerChar, jsIsWs_lowerChar]
    exact hab
  exact collapseWs_eq_self _ (fun c hc hw => (markerFree_canonList s h c hc).2 hw) hchain_y

theorem jsTrim_canonList (s : List Char) :
    jsTrim ((jsTrim (collapseWs s)).map lowerChar) =
      (jsTrim (collapseWs s)).map lowerChar := by
  apply jsTrim_eq_self
  · intro c t heq
    cases hzz : jsTrim (collapseWs s) with
    | nil => rw [hzz] at heq; simp at heq
    | cons d ds =>
      rw [hzz, List.map_cons] at heq
      injection heq with h1 _
      rw [← h1, jsIsWs_lowerChar]
      exact jsTrim_head_not_ws (collapseWs s) d ds hzz
  · intro c t heq
    rw [← List.map_reverse] at heq
    cases hzz : (jsTrim (collapseWs s)).reverse with
    | nil => rw [hzz] at heq; simp at heq
    | cons d ds =>
      rw [hzz, List.map_cons] at heq
      injection heq with h1 _
      rw [← h1, jsIsWs_lowerChar]
      exact jsTrim_last_not_ws (collapseWs s) d ds hzz

theorem canonicalizeAnswer_canonList_fixed (s : List Char) (h : markerFree s = true) :
    canonicalizeAnswer ((jsTrim (collapseWs s)).map lowerChar) =
      (jsTrim (collapseWs s)).map lowerChar := by
  have hymem := markerFree_canonList s h
  simp only [canonicalizeAnswer]
  rw [replaceCodeBlocks_of_none _ _
      (splitTriple_eq_none _ (fun c hc => (hymem c hc).1.2.2)),
    collapseWs_canonList s h, jsTrim_canonList s, map_lowerChar_idem,
    stripDouble_of_no_mark '*' _ _ (fun c hc => (hymem c hc).1.1),
    stripDouble_of_no_mark '_' _ _ (fun c hc => (hymem c hc).1.2.1),
    stripSingle_of_no_mark '*' _ _ (fun c hc => (hymem c hc).1.1),
    stripSingle_of_no_mark '_' _ _ (fun c hc => (hymem c hc).1.2.1)]

/-- C2 (amended): `canonicalizeAnswer` is idempotent on every input free of
the marker characters `*`, `_` and backtick.  On arbitrary inputs it is not
idempotent: stripping an emphasis span whose capture begins or ends with a
space leaves doubled (or trailing) whitespace that only a second pass
collapses. -/
theorem canonicalizeAnswer_idempotent_markerFree (s : List Char)
    (h : markerFree s = true) :
    canonicalizeAnswer (canonicalizeAnswer s) = canonicalizeAnswer s := by
  rw [canonicalizeAnswer_markerFree_eq s h, canonicalizeAnswer_canonList_fixed s h]

/-- Witness for C2 (amended) on a marker-free input with messy whitespace. -/
theorem canonicalizeAnswer_idempotent_witness :
    canonicalizeAnswer (canonicalizeAnswer (("  Hello   World \n ").data)) =
      canonicalizeAnswer (("  Hello   World \n ").data) :=
  canonicalizeAnswer_idempotent_markerFree (("  Hello   World \n ").data) (by decide)

/-! ### Levenshtein matrix lemmas -/

theorem levMatrix_zero_right (a b : List Char) (i : Nat) : levMatrix a b i 0 = i := by
  cases i <;> rfl

theorem levMatrix_succ_succ (a b : List Char) (i j : Nat) :
    levMatrix a b (i + 1) (j + 1) =
      if b.getD i ' ' = a.getD j ' ' then levMatrix a b i j
      else min (levMatrix a b i j + 1)
        (min (levMatrix a b (i + 1) j + 1) (levMatrix a b i (j + 1) + 1)) := rfl

theorem levMatrix_symm (a b : List Char) :
    ∀ i j, levMatrix a b i j = levMatrix b a j i := by
  intro i
  induction i with
  | zero =>
    intro j
    rw [levMatrix_zero_right]
    rfl
  | succ i ih =>
    intro j
    induction j with
    | zero => rw [levMatrix_zero_right]; rfl
    | succ j ihj =>
      rw [levMatrix_succ_succ, levMatrix_succ_succ]
      by_cases hc : b.getD i ' ' = a.getD j ' '
      · rw [if_pos hc, if_pos hc.symm, ih j]
      · rw [if_neg hc, if_neg (fun he => hc he.symm), ih j, ih (j + 1), ihj]
        omega

theorem levMatrix_le_max (a b : List Char) :
    ∀ i j, levMatrix a b i j ≤ max i j := by
  intro i
  induction i with
  | zero => intro j; simp [levMatrix]
  | succ i ih =>
    intro j
    induction j with
    | zero => rw [levMatrix_zero_right]; omega
    | succ j ihj =>
      rw [levMatrix_succ_succ]
      have h1 := ih j
      have h2 := ih (j + 1)
      split <;> omega

theorem levMatrix_self_diag (a : List Char) : ∀ i, levMatrix a a i i = 0 := by
  intro i
  induction i with
  | zero => rfl
  | succ i ih => rw [levMatrix_succ_succ, if_pos rfl, ih]

/-- C8: the normalized Levenshtein similarity used by the semantic
aggregator is symmetric, bounded in `[0, 1]`, and reflexive
(`stringSimilarity a a = 1`), with the division exact in `ℚ`. -/
theorem stringSimilarity_props (a b : List Char) :
    stringSimilarity a b = stringSimilarity b a ∧
    0 ≤ stringSimilarity a b ∧ stringSimilarity a b ≤ 1 ∧
    stringSimilarity a a = 1 := by
  have hsym : stringSimilarity a b = stringSimilarity b a := by
    unfold stringSimilarity levenshteinDistance
    rw [levMatrix_symm, Nat.max_comm]
  have hself : stringSimilarity a a = 1 := by
    unfold stringSimilarity levenshteinDistance
    rcases Nat.eq_zero_or_pos a.length with hz | hp
    · simp [hz]
    · simp only [Nat.max_self]
      rw [if_neg (by omega), levMatrix_self_diag]
      simp
  refine ⟨hsym, ?_, ?_, hself⟩
  · unfold stringSimilarity levenshteinDistance
    rcases Nat.eq_zero_or_pos (max a.length b.length) with hz | hp
    · simp [hz]
    · rw [if_neg (by omega)]
      have hle : levMatrix a b b.length a.length ≤ max a.length b.length := by
        have := levMatrix_le_max a b b.length a.length
        omega
      have hq : (levMatrix a b b.length a.length : ℚ) /
          ((max a.length b.length : Nat) : ℚ) ≤ 1 := by
        rw [div_le_one (by exact_mod_cast hp)]
        exact_mod_cast hle
      linarith
  · unfold stringSimilarity levenshteinDistance
    rcases Nat.eq_zero_or_pos (max a.length b.length) with hz | hp
    · simp [hz]
    · rw [if_neg (by omega)]
      have hq : 0 ≤ (levMatrix a b b.length a.length : ℚ) /
          ((max a.length b.length : Nat) : ℚ) :=
        div_nonneg (by positivity) (by positivity)
      linarith

/-! ### Expert runner loop lemmas -/

theorem runLoop_attempts_le (outcomes : Nat → ExpertRunner.AttemptOutcome) :
    ∀ (f : Nat) (st : ExpertRunner.RunState),
      (ExpertRunner.runLoop outcomes f st).attempts ≤ st.attempts + f := by
  intro f
  induction f with
  | zero => intro st; simp [ExpertRunner.runLoop]
  | succ f ih =>
    intro st
    rw [ExpertRunner.runLoop]
    by_cases hs : st.solved = true
    · rw [if_pos hs]; omega
    · rw [if_neg hs]
      dsimp only
      cases ho : outcomes (st.attempts + 1) with
      | apiError msg =>
        have h := ih { st with attempts := st.attempts + 1, lastError := msg }
        dsimp only at h ⊢
        omega
      | noCode resp u =>
        have h := ih { st with attempts := st.attempts + 1, usage := ExpertRunner.addUsage st.usage u }
        dsimp only at h ⊢
        omega
      | execFail resp u out =>
        have h := ih { st with attempts := st.attempts + 1, usage := ExpertRunner.addUsage st.usage u, lastError := out }
        dsimp only at h ⊢
        omega
      | execOk resp u out =>
        have h := ih { st with attempts := st.attempts + 1, usage := ExpertRunner.addUsage st.usage u, solved := true, finalResponse := resp, executionOutput := out }
        dsimp only at h ⊢
        omega

theorem runLoop_attempts_ge (outcomes : Nat → ExpertRunner.AttemptOutcome) :
    ∀ (f : Nat) (st : ExpertRunner.RunState),
      st.attempts ≤ (ExpertRunner.runLoop outcomes f st).attempts := by
  intro f
  induction f with
  | zero => intro st; simp [ExpertRunner.runLoop]
  | succ f ih =>
    intro st
    rw [ExpertRunner.runLoop]
    by_cases hs : st.solved = true
    · rw [if_pos hs]
    · rw [if_neg hs]
      dsimp only
      cases ho : outcomes (st.attempts + 1) with
      | apiError msg =>
        have h := ih { st with attempts := st.attempts + 1, lastError := msg }
        dsimp only at h ⊢
        omega
      | noCode resp u =>
        have h := ih { st with attempts := st.attempts + 1, usage := ExpertRunner.addUsage st.usage u }
        dsimp only at h ⊢
        omega
      | execFail resp u out =>
        have h := ih { st with attempts := st.attempts + 1, usage := ExpertRunner.addUsage st.usage u, lastError := out }
        dsimp only at h ⊢
        omega
      | execOk resp u out =>
        have h := ih { st with attempts := st.attempts + 1, usage := ExpertRunner.addUsage st.usage u, solved := true, finalResponse := resp, executionOutput := out }
        dsimp only at h ⊢
        omega

theorem runLoop_attempts_pos (outcomes : Nat → ExpertRunner.AttemptOutcome)
    (f : Nat) (st : ExpertRunner.RunState) (hs : st.solved = false) (hf : 1 ≤ f) :
    st.attempts + 1 ≤ (ExpertRunner.runLoop outcomes f st).attempts := by
  cases f with
  | zero => omega
  | succ f =>
    rw [ExpertRunner.runLoop, if_neg (by simp [hs])]
    dsimp only
    cases ho : outcomes (st.attempts + 1) with
    | apiError msg =>
      have h := runLoop_attempts_ge outcomes f { st with attempts := st.attempts + 1, lastError := msg }
      dsimp only at h ⊢
      omega
    | noCode resp u =>
      have h := runLoop_attempts_ge outcomes f { st with attempts := st.attempts + 1, usage := ExpertRunner.addUsage st.usage u }
      dsimp only at h ⊢
      omega
    | execFail resp u out =>
      have h := runLoop_attempts_ge outcomes f { st with attempts := st.attempts + 1, usage := ExpertRunner.addUsage st.usage u, lastError := out }
      dsimp only at h ⊢
      omega
    | execOk resp u out =>
      have h := runLoop_attempts_ge outcomes f { st with attempts := st.attempts + 1, usage := ExpertRunner.addUsage st.usage u, solved := true, finalResponse := resp, executionOutput := out }
      dsimp only at h ⊢
      omega

theorem one_le_maxAttemptsOf (maxRetries : Option Nat) :
    1 ≤ ExpertRunner.maxAttemptsOf maxRetries := by
  cases maxRetries with
  | none => decide
  | some m =>
    by_cases h : m = 0 <;> simp [ExpertRunner.maxAttemptsOf, h]
    omega

/-- C10: `ExpertRunner.run` never throws (the embedding is a total function
converting provider and sandbox errors into data); its `iterations` lie
between 1 and the retry bound — `maxRetries` when positive, 5 when absent or
0, because the bound is `maxRetries || 5` — and its fields are consistent:
success carries an execution output and no error, failure carries no
execution output and the last recorded error. -/
theorem run_spec (providerId providerName model : List Char) (maxRetries : Option Nat)
    (outcomes : Nat → ExpertRunner.AttemptOutcome) :
    1 ≤ (ExpertRunner.run providerId providerName model maxRetries outcomes).iterations ∧
    (ExpertRunner.run providerId providerName model maxRetries outcomes).iterations ≤
      ExpertRunner.maxAttemptsOf maxRetries ∧
    ((ExpertRunner.run providerId providerName model maxRetries outcomes).success = true →
      ((ExpertRunner.run providerId providerName model maxRetries outcomes).executionOutput).isSome
          = true ∧
        (ExpertRunner.run providerId providerName model maxRetries outcomes).error = none) ∧
    ((ExpertRunner.run providerId providerName model maxRetries outcomes).success = false →
      (ExpertRunner.run providerId providerName model maxRetries outcomes).executionOutput = none ∧
        ((ExpertRunner.run providerId providerName model maxRetries outcomes).error).isSome
          = true) := by
  have h1 : (ExpertRunner.run providerId providerName model maxRetries outcomes).iterations =
      (ExpertRunner.runLoop outcomes (ExpertRunner.maxAttemptsOf maxRetries)
        ⟨0, false, [], [], [], ⟨0, 0⟩⟩).attempts := rfl
  refine ⟨?_, ?_, ?_, ?_⟩
  · rw [h1]
    have := runLoop_attempts_pos outcomes (ExpertRunner.maxAttemptsOf maxRetries)
      ⟨0, false, [], [], [], ⟨0, 0⟩⟩ rfl (one_le_maxAttemptsOf maxRetries)
    omega
  · rw [h1]
    have := runLoop_attempts_le outcomes (ExpertRunner.maxAttemptsOf maxRetries)
      ⟨0, false, [], [], [], ⟨0, 0⟩⟩
    dsimp only at this
    omega
  · intro hsucc
    have hs : (ExpertRunner.runLoop outcomes (ExpertRunner.maxAttemptsOf maxRetries)
        ⟨0, false, [], [], [], ⟨0, 0⟩⟩).solved = true := hsucc
    constructor
    · show (if (ExpertRunner.runLoop outcomes (ExpertRunner.maxAttemptsOf maxRetries)
          ⟨0, false, [], [], [], ⟨0, 0⟩⟩).solved = true
        then some (ExpertRunner.runLoop outcomes (ExpertRunner.maxAttemptsOf maxRetries)
          ⟨0, false, [], [], [], ⟨0, 0⟩⟩).executionOutput else none).isSome = true
      rw [if_pos hs]
      rfl
    · show (if (ExpertRunner.runLoop outcomes (ExpertRunner.maxAttemptsOf maxRetries)
          ⟨0, false, [], [], [], ⟨0, 0⟩⟩).solved = true
        then none else some (ExpertRunner.runLoop outcomes (ExpertRunner.maxAttemptsOf maxRetries)
          ⟨0, false, [], [], [], ⟨0, 0⟩⟩).lastError) = none
      rw [if_pos hs]
  · intro hfail
    have hs : ¬((ExpertRunner.runLoop outcomes (ExpertRunner.maxAttemptsOf maxRetries)
        ⟨0, false, [], [], [], ⟨0, 0⟩⟩).solved = true) := by
      intro hcon
      rw [show (ExpertRunner.run providerId providerName model maxRetries outcomes).success =
        (ExpertRunner.runLoop outcomes (ExpertRunner.maxAttemptsOf maxRetries)
          ⟨0, false, [], [], [], ⟨0, 0⟩⟩).solved from rfl, hcon] at hfail
      simp at hfail
    constructor
    · show (if (ExpertRunner.runLoop outcomes (ExpertRunner.maxAttemptsOf maxRetries)
          ⟨0, false, [], [], [], ⟨0, 0⟩⟩).solved = true
        then some (ExpertRunner.runLoop outcomes (ExpertRunner.maxAttemptsOf maxRetries)
          ⟨0, false, [], [], [], ⟨0, 0⟩⟩).executionOutput else none) = none
      rw [if_neg hs]
    · show (if (ExpertRunner.runLoop outcomes (ExpertRunner.maxAttemptsOf maxRetries)
          ⟨0, false, [], [], [], ⟨0, 0⟩⟩).solved = true
        then none else some (ExpertRunner.runLoop outcomes (ExpertRunner.maxAttemptsOf maxRetries)
          ⟨0, false, [], [], [], ⟨0, 0⟩⟩).lastError).isSome = true
      rw [if_neg hs]
      rfl

/-- Witness for C10: two attempts that both fail with an API error give a
failed result with consistent fields and at least one iteration. -/
theorem run_spec_witness :
    1 ≤ (ExpertRunner.run (("p").data) (("P").data) (("m").data) (some 2)
      (fun _ => ExpertRunner.AttemptOutcome.apiError (("boom").data))).iterations ∧
    ((ExpertRunner.run (("p").data) (("P").data) (("m").data) (some 2)
        (fun _ => ExpertRunner.AttemptOutcome.apiError (("boom").data))).executionOutput = none ∧
      ((ExpertRunner.run (("p").data) (("P").data) (("m").data) (some 2)
        (fun _ => ExpertRunner.AttemptOutcome.apiError (("boom").data))).error).isSome = true) :=
  ⟨(run_spec (("p").data) (("P").data) (("m").data) (some 2)
      (fun _ => ExpertRunner.AttemptOutcome.apiError (("boom").data))).1,
   (run_spec (("p").data) (("P").data) (("m").data) (some 2)
      (fun _ => ExpertRunner.AttemptOutcome.apiError (("boom").data))).2.2.2 (by decide)⟩

/-! ### Group-sorting lemmas -/

theorem groupBefore_total (a b : ConsensusGroup) :
    groupBefore a b = true ∨ groupBefore b a = true := by
  unfold groupBefore
  rcases Nat.lt_trichotomy a.voteCount b.voteCount with h | h | h
  · right; exact decide_eq_true (Or.inl h)
  · rcases le_total b.averageSuccess a.averageSuccess with hq | hq
    · left; exact decide_eq_true (Or.inr ⟨h, hq⟩)
    · right; exact decide_eq_true (Or.inr ⟨h.symm, hq⟩)
  · left; exact decide_eq_true (Or.inl h)

theorem groupBefore_trans (a b c : ConsensusGroup)
    (hab : groupBefore a b = true) (hbc : groupBefore b c = true) :
    groupBefore a c = true := by
  unfold groupBefore at *
  have h1 := of_decide_eq_true hab
  have h2 := of_decide_eq_true hbc
  apply decide_eq_true
  rcases h1 with h1 | ⟨h1e, h1q⟩ <;> rcases h2 with h2 | ⟨h2e, h2q⟩
  · exact Or.inl (h2.trans h1)
  · exact Or.inl (by omega)
  · exact Or.inl (by omega)
  · exact Or.inr ⟨by omega, h2q.trans h1q⟩

theorem groupBefore_le (a b : ConsensusGroup) (h : groupBefore a b = true) :
    b.voteCount ≤ a.voteCount := by
  rcases of_decide_eq_true h with h | ⟨h, _⟩ <;> omega

theorem insertGroup_perm (g : ConsensusGroup) (l : List ConsensusGroup) :
    (insertGroup g l).Perm (g :: l) := by
  induction l with
  | nil => exact List.Perm.refl _
  | cons h t ih =>
    rw [insertGroup]
    by_cases hb : groupBefore h g
    · rw [if_pos hb]
      exact (ih.cons h).trans (List.Perm.swap g h t)
    · rw [if_neg hb]

theorem insertGroup_sorted (g : ConsensusGroup) (l : List ConsensusGroup)
    (h : l.Sorted (fun a b => groupBefore a b = true)) :
    (insertGroup g l).Sorted (fun a b => groupBefore a b = true) := by
  induction l with
  | nil => simp [insertGroup]
  | cons x t ih =>
    rw [insertGroup]
    rcases List.sorted_cons.mp h with ⟨hx, ht⟩
    by_cases hb : groupBefore x g
    · rw [if_pos hb]
      refine List.sorted_cons.mpr ⟨?_, ih ht⟩
      intro y hy
      rcases List.mem_cons.mp ((insertGroup_perm g t).mem_iff.mp hy) with rfl | hyt
      · exact hb
      · exact hx y hyt
    · rw [if_neg hb]
      have hg : groupBefore g x = true := by
        rcases groupBefore_total x g with hc | hc
        · exact absurd hc hb
        · exact hc
      refine List.sorted_cons.mpr ⟨?_, h⟩
      intro y hy
      rcases List.mem_cons.mp hy with rfl | hyt
      · exact hg
      · exact groupBefore_trans g x y hg (hx y hyt)

theorem sortGroups_aux_perm :
    ∀ (l acc : List ConsensusGroup),
      (List.foldl (fun acc g => insertGroup g acc) acc l).Perm (acc ++ l) := by
  intro l
  induction l with
  | nil => intro acc; simp
  | cons g t ih =>
    intro acc
    rw [List.foldl_cons]
    refine (ih (insertGroup g acc)).trans ?_
    refine (List.Perm.append_right t (insertGroup_perm g acc)).trans ?_
    exact List.perm_middle.symm

theorem sortGroups_perm (l : List ConsensusGroup) : (sortGroups l).Perm l :=
  sortGroups_aux_perm l []

theorem sortGroups_sorted (l : List ConsensusGroup) :
    (sortGroups l).Sorted (fun a b => groupBefore a b = true) := by
  have haux : ∀ (t acc : List ConsensusGroup),
      acc.Sorted (fun a b => groupBefore a b = true) →
      (List.foldl (fun acc g => insertGroup g acc) acc t).Sorted
        (fun a b => groupBefore a b = true) := by
    intro t
    induction t with
    | nil => intro acc h; exact h
    | cons g t ih =>
      intro acc h
      rw [List.foldl_cons]
      exact ih (insertGroup g acc) (insertGroup_sorted g acc h)
  exact haux l [] (by simp)

/-! ### Grouping / clustering permutation lemmas -/

theorem addG_flatten (acc : List (List Char × List ExpertResult)) (r : ExpertResult) :
    ((addG acc r).map Prod.snd).flatten.Perm ((acc.map Prod.snd).flatten ++ [r]) := by
  induction acc with
  | nil => simp [addG]
  | cons p t ih =>
    rcases p with ⟨k, rs⟩
    rw [addG]
    by_cases hk : k = r.canonicalAnswer
    · rw [if_pos hk]
      simp only [List.map_cons, List.flatten_cons]
      rw [List.append_assoc, List.append_assoc]
      exact List.Perm.append_left rs List.perm_append_comm
    · rw [if_neg hk]
      simp only [List.map_cons, List.flatten_cons]
      rw [List.append_assoc]
      exact List.Perm.append_left rs ih

theorem groupByCanonical_flatten (results : List ExpertResult) :
    (((groupByCanonical results).map Prod.snd).flatten).Perm results := by
  have haux : ∀ (rs : List ExpertResult) (acc : List (List Char × List ExpertResult)),
      (((List.foldl addG acc rs).map Prod.snd).flatten).Perm
        ((acc.map Prod.snd).flatten ++ rs) := by
    intro rs
    induction rs with
    | nil => intro acc; simp
    | cons r t ih =>
      intro acc
      rw [List.foldl_cons]
      refine (ih (addG acc r)).trans ?_
      refine (List.Perm.append_right t (addG_flatten acc r)).trans ?_
      rw [List.append_assoc]
      exact List.Perm.refl _
  simpa [groupByCanonical] using haux results []

theorem addToClusters_flatten (cls : List (List ExpertResult)) (r : ExpertResult) :
    (SemanticAggregator.addToClusters cls r).flatten.Perm (cls.flatten ++ [r]) := by
  induction cls with
  | nil => simp [SemanticAggregator.addToClusters]
  | cons c cs ih =>
    cases c with
    | nil =>
      conv_lhs => rw [SemanticAggregator.addToClusters.eq_def]
      dsimp only
      simp only [List.flatten_cons, List.nil_append]
      exact ih
    | cons rep rest =>
      conv_lhs => rw [SemanticAggregator.addToClusters.eq_def]
      dsimp only
      by_cases hsim : SemanticAggregator.similarityThreshold ≤
          stringSimilarity r.canonicalAnswer rep.canonicalAnswer
      · rw [if_pos hsim]
        simp only [List.flatten_cons]
        rw [List.append_assoc, List.append_assoc]
        exact List.Perm.append_left _ List.perm_append_comm
      · rw [if_neg hsim]
        simp only [List.flatten_cons]
        rw [List.append_assoc]
        exact List.Perm.append_left _ ih

theorem clusters_flatten (results : List ExpertResult) :
    ((List.foldl SemanticAggregator.addToClusters [] results).flatten).Perm results := by
  have haux : ∀ (rs : List ExpertResult) (acc : List (List ExpertResult)),
      ((List.foldl SemanticAggregator.addToClusters acc rs).flatten).Perm
        (acc.flatten ++ rs) := by
    intro rs
    induction rs with
    | nil => intro acc; simp
    | cons r t ih =>
      intro acc
      rw [List.foldl_cons]
      refine (ih (SemanticAggregator.addToClusters acc r)).trans ?_
      refine (List.Perm.append_right t (addToClusters_flatten acc r)).trans ?_
      rw [List.append_assoc]
      exact List.Perm.refl _
  simpa using haux results []

theorem addToClusters_ne_nil (cls : List (List ExpertResult)) (r : ExpertResult)
    (h : ∀ c ∈ cls, c ≠ []) :
    ∀ c ∈ SemanticAggregator.addToClusters cls r, c ≠ [] := by
  induction cls with
  | nil =>
    intro c hc
    rw [SemanticAggregator.addToClusters] at hc
    simp at hc
    simp [hc]
  | cons c0 cs ih =>
    cases c0 with
    | nil => exact absurd rfl (h [] (by simp))
    | cons rep rest =>
      intro c hc
      conv at hc => rw [SemanticAggregator.addToClusters.eq_def]
      dsimp only at hc
      by_cases hsim : SemanticAggregator.similarityThreshold ≤
          stringSimilarity r.canonicalAnswer rep.canonicalAnswer
      · rw [if_pos hsim] at hc
        rcases List.mem_cons.mp hc with rfl | hct
        · simp
        · exact h c (by simp [hct])
      · rw [if_neg hsim] at hc
        rcases List.mem_cons.mp hc with rfl | hct
        · simp
        · exact ih (fun x hx => h x (by simp [hx])) c hct

theorem clusters_ne_nil (results : List ExpertResult) :
    ∀ c ∈ List.foldl SemanticAggregator.addToClusters [] results, c ≠ [] := by
  have haux : ∀ (rs : List ExpertResult) (acc : List (List ExpertResult)),
      (∀ c ∈ acc, c ≠ []) →
      ∀ c ∈ List.foldl SemanticAggregator.addToClusters acc rs, c ≠ [] := by
    intro rs
    induction rs with
    | nil => intro acc h; exact h
    | cons r t ih =>
      intro acc h
      rw [List.foldl_cons]
      exact ih _ (addToClusters_ne_nil acc r h)
  exact haux results [] (by simp)

theorem exact_sorted_flatten (results : List ExpertResult) :
    (((sortGroups ((groupByCanonical results).map fun kv =>
        ({ canonicalAnswer := kv.1
           responses := kv.2
           voteCount := kv.2.length
           averageSuccess := averageSuccessOf kv.2 } : ConsensusGroup))).map
      (fun g => g.responses)).flatten).Perm results := by
  have hperm := (sortGroups_perm ((groupByCanonical results).map fun kv =>
      ({ canonicalAnswer := kv.1
         responses := kv.2
         voteCount := kv.2.length
         averageSuccess := averageSuccessOf kv.2 } : ConsensusGroup))).map
    (fun g => g.responses)
  refine (hperm.flatten).trans ?_
  have hmm : (((groupByCanonical results).map fun kv =>
      ({ canonicalAnswer := kv.1
         responses := kv.2
         voteCount := kv.2.length
         averageSuccess := averageSuccessOf kv.2 } : ConsensusGroup)).map (fun g => g.responses))
      = (groupByCanonical results).map Prod.snd := by
    rw [List.map_map]
    rfl
  rw [hmm]
  exact groupByCanonical_flatten results

/-- C5: for every non-empty input, `ExactMatchAggregator.aggregate` returns a
result whose winning group has a vote count at least that of every group in
`allGroups`, and whose `agreement` is exactly `winningVotes / total` in `ℚ`. -/
theorem exact_aggregate_spec (results : List ExpertResult) (tt : TaskType)
    (h : results ≠ []) :
    ∃ res, ExactMatchAggregator.aggregate results tt = some res ∧
      (∀ g ∈ res.allGroups, g.voteCount ≤ res.winningGroup.voteCount) ∧
      res.agreement = (res.winningGroup.voteCount : ℚ) / results.length := by
  rcases hcg : sortGroups ((groupByCanonical results).map fun kv =>
      ({ canonicalAnswer := kv.1
         responses := kv.2
         voteCount := kv.2.length
         averageSuccess := averageSuccessOf kv.2 } : ConsensusGroup)) with _ | ⟨w, rest⟩
  · exfalso
    have hperm := exact_sorted_flatten results
    rw [hcg] at hperm
    simp only [List.map_nil, List.flatten_nil] at hperm
    exact h hperm.symm.eq_nil
  · have hs := sortGroups_sorted ((groupByCanonical results).map fun kv =>
      ({ canonicalAnswer := kv.1
         responses := kv.2
         voteCount := kv.2.length
         averageSuccess := averageSuccessOf kv.2 } : ConsensusGroup))
    rw [hcg] at hs
    rcases List.sorted_cons.mp hs with ⟨hw, _⟩
    refine ⟨{ strategy := ("exact").data
              taskType := tt
              winningAnswer := match w.responses with | r :: _ => r.response | [] => []
              winningGroup := w
              allGroups := w :: rest
              totalExperts := results.length
              agreement := (w.voteCount : ℚ) / results.length
              summary := buildSummaryExact (w :: rest) results.length }, ?_, ?_, ?_⟩
    · simp only [ExactMatchAggregator.aggregate]
      rw [hcg]
    · intro g hg
      dsimp only at hg
      rcases List.mem_cons.mp hg with rfl | hgr
      · exact le_refl _
      · exact groupBefore_le w g (hw g hgr)
    · rfl

/-- Witness for C5 on a single-expert input. -/
theorem exact_aggregate_spec_witness :
    ([sampleSuccess] : List ExpertResult) ≠ [] ∧
    (∃ res, ExactMatchAggregator.aggregate [sampleSuccess] TaskType.structured = some res ∧
      (∀ g ∈ res.allGroups, g.voteCount ≤ res.winningGroup.voteCount) ∧
      res.agreement = (res.winningGroup.voteCount : ℚ) / ([sampleSuccess] : List ExpertResult).length) :=
  ⟨by simp, exact_aggregate_spec [sampleSuccess] TaskType.structured (by simp)⟩

theorem exact_aggregate_invariants (results : List ExpertResult) (tt : TaskType)
    (h : results ≠ []) :
    ∃ res, ExactMatchAggregator.aggregate results tt = some res ∧
      (((res.allGroups.map fun g => g.responses).flatten).Perm results ∧
       (∀ g ∈ res.allGroups, g.voteCount = g.responses.length) ∧
       ((res.allGroups.map fun g => g.voteCount).sum = res.totalExperts) ∧
       res.allGroups.head? = some res.winningGroup ∧
       res.allGroups.Sorted (fun a b => groupBefore a b = true)) := by
  rcases hcg : sortGroups ((groupByCanonical results).map fun kv =>
      ({ canonicalAnswer := kv.1
         responses := kv.2
         voteCount := kv.2.length
         averageSuccess := averageSuccessOf kv.2 } : ConsensusGroup)) with _ | ⟨w, rest⟩
  · exfalso
    have hperm := exact_sorted_flatten results
    rw [hcg] at hperm
    simp only [List.map_nil, List.flatten_nil] at hperm
    exact h hperm.symm.eq_nil
  · have hv : ∀ g ∈ w :: rest, g.voteCount = g.responses.length := by
      intro g hg
      have hp := sortGroups_perm ((groupByCanonical results).map fun kv =>
        ({ canonicalAnswer := kv.1
           responses := kv.2
           voteCount := kv.2.length
           averageSuccess := averageSuccessOf kv.2 } : ConsensusGroup))
      rw [hcg] at hp
      rcases List.mem_map.mp (hp.subset hg) with ⟨kv, _, rfl⟩
      rfl
    have hperm := exact_sorted_flatten results
    rw [hcg] at hperm
    refine ⟨{ strategy := ("exact").data
              taskType := tt
              winningAnswer := match w.responses with | r :: _ => r.response | [] => []
              winningGroup := w
              allGroups := w :: rest
              totalExperts := results.length
              agreement := (w.voteCount : ℚ) / results.length
              summary := buildSummaryExact (w :: rest) results.length },
      ?_, ?_, ?_, ?_, ?_, ?_⟩
    · simp only [ExactMatchAggregator.aggregate]
      rw [hcg]
    · exact hperm
    · exact hv
    · have hlen := hperm.length_eq
      rw [List.length_flatten, List.map_map] at hlen
      have hcong : (w :: rest).map (fun g => g.voteCount) =
          (w :: rest).map (List.length ∘ fun g => g.responses) :=
        List.map_congr_left fun g hg => hv g hg
      dsimp only
      rw [hcong]
      exact hlen
    · rfl
    · have hs := sortGroups_sorted ((groupByCanonical results).map fun kv =>
        ({ canonicalAnswer := kv.1
           responses := kv.2
           voteCount := kv.2.length
           averageSuccess := averageSuccessOf kv.2 } : ConsensusGroup))
      rw [hcg] at hs
      exact hs

theorem semantic_sorted_flatten (results : List ExpertResult) :
    (((sortGroups ((results.foldl SemanticAggregator.addToClusters []).map fun cluster =>
        ({ canonicalAnswer := match SemanticAggregator.bestResultOf cluster with
             | some b => b.canonicalAnswer
             | none => []
           responses := cluster
           voteCount := cluster.length
           averageSuccess := averageSuccessOf cluster } : ConsensusGroup))).map
      (fun g => g.responses)).flatten).Perm results := by
  have hperm := (sortGroups_perm ((results.foldl SemanticAggregator.addToClusters []).map
      fun cluster =>
        ({ canonicalAnswer := match SemanticAggregator.bestResultOf cluster with
             | some b => b.canonicalAnswer
             | none => []
           responses := cluster
           voteCount := cluster.length
           averageSuccess := averageSuccessOf cluster } : ConsensusGroup))).map
    (fun g => g.responses)
  refine (hperm.flatten).trans ?_
  have hmm : (((results.foldl SemanticAggregator.addToClusters []).map fun cluster =>
      ({ canonicalAnswer := match SemanticAggregator.bestResultOf cluster with
           | some b => b.canonicalAnswer
           | none => []
         responses := cluster
         voteCount := cluster.length
         averageSuccess := averageSuccessOf cluster } : ConsensusGroup)).map (fun g => g.responses))
      = results.foldl SemanticAggregator.addToClusters [] := by
    rw [List.map_map]
    exact List.map_id' _
  rw [hmm]
  exact clusters_flatten results

theorem semantic_aggregate_invariants (results : List ExpertResult) (tt : TaskType)
    (h : results ≠ []) :
    ∃ res, SemanticAggregator.aggregate results tt = some res ∧
      (((res.allGroups.map fun g => g.responses).flatten).Perm results ∧
       (∀ g ∈ res.allGroups, g.voteCount = g.responses.length) ∧
       ((res.allGroups.map fun g => g.voteCount).sum = res.totalExperts) ∧
       res.allGroups.head? = some res.winningGroup ∧
       res.allGroups.Sorted (fun a b => groupBefore a b = true)) := by
  rcases hcg : sortGroups ((results.foldl SemanticAggregator.addToClusters []).map
      fun cluster =>
        ({ canonicalAnswer := match SemanticAggregator.bestResultOf cluster with
             | some b => b.canonicalAnswer
             | none => []
           responses := cluster
           voteCount := cluster.length
           averageSuccess := averageSuccessOf cluster } : ConsensusGroup)) with _ | ⟨w, rest⟩
  · exfalso
    have hperm := semantic_sorted_flatten results
    rw [hcg] at hperm
    simp only [List.map_nil, List.flatten_nil] at hperm
    exact h hperm.symm.eq_nil
  · have hv : ∀ g ∈ w :: rest, g.voteCount = g.responses.length := by
      intro g hg
      have hp := sortGroups_perm ((results.foldl SemanticAggregator.addToClusters []).map
        fun cluster =>
          ({ canonicalAnswer := match SemanticAggregator.bestResultOf cluster with
               | some b => b.canonicalAnswer
               | none => []
             responses := cluster
             voteCount := cluster.length
             averageSuccess := averageSuccessOf cluster } : ConsensusGroup))
      rw [hcg] at hp
      rcases List.mem_map.mp (hp.subset hg) with ⟨cluster, _, rfl⟩
      rfl
    have hperm := semantic_sorted_flatten results
    rw [hcg] at hperm
    refine ⟨{ strategy := ("semantic").data
              taskType := tt
              winningAnswer := match SemanticAggregator.longestOf w.responses with
                | some b => b.response
                | none => []
              winningGroup := w
              allGroups := w :: rest
              totalExperts := results.length
              agreement := (w.voteCount : ℚ) / results.length
              summary := SemanticAggregator.buildSummary (w :: rest) results.length },
      ?_, ?_, ?_, ?_, ?_, ?_⟩
    · simp only [SemanticAggregator.aggregate]
      rw [hcg]
    · exact hperm
    · exact hv
    · have hlen := hperm.length_eq
      rw [List.length_flatten, List.map_map] at hlen
      have hcong : (w :: rest).map (fun g => g.voteCount) =
          (w :: rest).map (List.length ∘ fun g => g.responses) :=
        List.map_congr_left fun g hg => hv g hg
      dsimp only
      rw [hcong]
      exact hlen
    · rfl
    · have hs := sortGroups_sorted ((results.foldl SemanticAggregator.addToClusters []).map
        fun cluster =>
          ({ canonicalAnswer := match SemanticAggregator.bestResultOf cluster with
               | some b => b.canonicalAnswer
               | none => []
             responses := cluster
             voteCount := cluster.length
             averageSuccess := averageSuccessOf cluster } : ConsensusGroup))
      rw [hcg] at hs
      exact hs

/-- C9: for every non-empty input and both aggregators, the returned
`ConsensusResult`'s `allGroups` partition the input (the concatenation of
their `responses` is a permutation of the input, so every input result
appears in exactly one group), each `voteCount` equals its group's
`responses` length (hence the vote counts sum to `totalExperts`),
`winningGroup` is the head of `allGroups`, and `allGroups` is sorted
non-increasingly by vote count with average success breaking ties. -/
theorem aggregate_partition_invariants (results : List ExpertResult) (tt : TaskType)
    (h : results ≠ []) :
    (∃ res, ExactMatchAggregator.aggregate results tt = some res ∧
      (((res.allGroups.map fun g => g.responses).flatten).Perm results ∧
       (∀ g ∈ res.allGroups, g.voteCount = g.responses.length) ∧
       ((res.allGroups.map fun g => g.voteCount).sum = res.totalExperts) ∧
       res.allGroups.head? = some res.winningGroup ∧
       res.allGroups.Sorted (fun a b => groupBefore a b = true))) ∧
    (∃ res, SemanticAggregator.aggregate results tt = some res ∧
      (((res.allGroups.map fun g => g.responses).flatten).Perm results ∧
       (∀ g ∈ res.allGroups, g.voteCount = g.responses.length) ∧
       ((res.allGroups.map fun g => g.voteCount).sum = res.totalExperts) ∧
       res.allGroups.head? = some res.winningGroup ∧
       res.allGroups.Sorted (fun a b => groupBefore a b = true))) :=
  ⟨exact_aggregate_invariants results tt h, semantic_aggregate_invariants results tt h⟩

/-- Witness for C9 on a single-expert input. -/
theorem aggregate_partition_invariants_witness :
    ([sampleFailure] : List ExpertResult) ≠ [] ∧
    ((∃ res, ExactMatchAggregator.aggregate [sampleFailure] TaskType.open_ended = some res ∧
      (((res.allGroups.map fun g => g.responses).flatten).Perm [sampleFailure] ∧
       (∀ g ∈ res.allGroups, g.voteCount = g.responses.length) ∧
       ((res.allGroups.map fun g => g.voteCount).sum = res.totalExperts) ∧
       res.allGroups.head? = some res.winningGroup ∧
       res.allGroups.Sorted (fun a b => groupBefore a b = true))) ∧
    (∃ res, SemanticAggregator.aggregate [sampleFailure] TaskType.open_ended = some res ∧
      (((res.allGroups.map fun g => g.responses).flatten).Perm [sampleFailure] ∧
       (∀ g ∈ res.allGroups, g.voteCount = g.responses.length) ∧
       ((res.allGroups.map fun g => g.voteCount).sum = res.totalExperts) ∧
       res.allGroups.head? = some res.winningGroup ∧
       res.allGroups.Sorted (fun a b => groupBefore a b = true)))) :=
  ⟨by simp, aggregate_partition_invariants [sampleFailure] TaskType.open_ended (by simp)⟩

/-- Counterexample for C1: in a winning cluster holding a short successful
result and a longer failed one, `SemanticAggregator.aggregate` answers with
the longer failed member's response — success is not preferred when picking
`winningAnswer` (lines 177–180 consult only response length). -/
theorem semantic_winningAnswer_counterexample :
    (SemanticAggregator.aggregate [sampleSuccess, sampleFailure] TaskType.open_ended).map
        (fun res => res.winningAnswer) = some sampleFailure.response ∧
    (SemanticAggregator.aggregate [sampleSuccess, sampleFailure] TaskType.open_ended).map
        (fun res => res.winningGroup.responses) = some [sampleSuccess, sampleFailure] ∧
    sampleSuccess.success = true ∧ sampleFailure.success = false ∧
    sampleSuccess.response.length < sampleFailure.response.length ∧
    sampleFailure.response ≠ sampleSuccess.response := by
  have hsim : SemanticAggregator.similarityThreshold ≤
      stringSimilarity (("x").data) (("x").data) := by
    have h0 : stringSimilarity (("x").data) (("x").data) = 1 := by
      show stringSimilarity ['x'] ['x'] = 1
      unfold stringSimilarity levenshteinDistance
      have hd : levMatrix ['x'] ['x'] 1 1 = 0 := levMatrix_self_diag ['x'] 1
      simp [hd]
    rw [h0]
    unfold SemanticAggregator.similarityThreshold
    norm_num
  have hclusters : [sampleSuccess, sampleFailure].foldl SemanticAggregator.addToClusters []
      = [[sampleSuccess, sampleFailure]] := by
    simp only [List.foldl_cons, List.foldl_nil]
    rw [show SemanticAggregator.addToClusters [] sampleSuccess = [[sampleSuccess]] from rfl]
    conv_lhs => rw [SemanticAggregator.addToClusters.eq_def]
    dsimp only [sampleSuccess, sampleFailure]
    rw [if_pos hsim]
    rfl
  simp only [SemanticAggregator.aggregate]
  rw [hclusters]
  decide

theorem foldl_longest_spec :
    ∀ (t : List ExpertResult) (h0 : ExpertResult),
      (t.foldl (fun best curr =>
          if best.response.length < curr.response.length then curr else best) h0) ∈ h0 :: t ∧
      ∀ x ∈ h0 :: t, x.response.length ≤
        (t.foldl (fun best curr =>
          if best.response.length < curr.response.length then curr else best)
          h0).response.length := by
  intro t
  induction t with
  | nil =>
    intro h0
    refine ⟨by simp, ?_⟩
    intro x hx
    rw [List.mem_singleton] at hx
    subst hx
    exact le_refl _
  | cons curr t ih =>
    intro h0
    rw [List.foldl_cons]
    obtain ⟨ihm, ihb⟩ := ih (if h0.response.length < curr.response.length then curr else h0)
    constructor
    · rcases List.mem_cons.mp ihm with he | ht
      · rw [he]
        split <;> simp
      · exact List.mem_cons_of_mem _ (List.mem_cons_of_mem _ ht)
    · intro x hx
      rcases List.mem_cons.mp hx with rfl | hx2
      · have h1 : x.response.length ≤
            (if x.response.length < curr.response.length then curr else x).response.length := by
          split <;> omega
        exact h1.trans (ihb _ (by simp))
      · rcases List.mem_cons.mp hx2 with rfl | hx3
        · have h1 : x.response.length ≤
              (if h0.response.length < x.response.length then x else h0).response.length := by
            split <;> omega
          exact h1.trans (ihb _ (by simp))
        · exact ihb x (by simp [hx3])

/-- C1 (amended): within the winning cluster, `winningAnswer` is chosen by
response length alone: it is the response of a member of maximal raw length
(the earliest such member, since the reduce replaces only on strictly greater
length).  Success enters only the per-cluster `bestResult` reduce that fixes
each group's `canonicalAnswer`; it never influences `winningAnswer`, so a
longer failed member is preferred over a shorter successful one. -/
theorem semantic_winningAnswer_longest (results : List ExpertResult) (tt : TaskType)
    (h : results ≠ []) :
    ∃ res, SemanticAggregator.aggregate results tt = some res ∧
      ∃ r ∈ res.winningGroup.responses,
        res.winningAnswer = r.response ∧
        ∀ r2 ∈ res.winningGroup.responses, r2.response.length ≤ r.response.length := by
  rcases hcg : sortGroups ((results.foldl SemanticAggregator.addToClusters []).map
      fun cluster =>
        ({ canonicalAnswer := match SemanticAggregator.bestResultOf cluster with
             | some b => b.canonicalAnswer
             | none => []
           responses := cluster
           voteCount := cluster.length
           averageSuccess := averageSuccessOf cluster } : ConsensusGroup)) with _ | ⟨w, rest⟩
  · exfalso
    have hperm := semantic_sorted_flatten results
    rw [hcg] at hperm
    simp only [List.map_nil, List.flatten_nil] at hperm
    exact h hperm.symm.eq_nil
  · have hp := sortGroups_perm ((results.foldl SemanticAggregator.addToClusters []).map
      fun cluster =>
        ({ canonicalAnswer := match SemanticAggregator.bestResultOf cluster with
             | some b => b.canonicalAnswer
             | none => []
           responses := cluster
           voteCount := cluster.length
           averageSuccess := averageSuccessOf cluster } : ConsensusGroup))
    rw [hcg] at hp
    rcases List.mem_map.mp (hp.subset (List.mem_cons_self w rest)) with ⟨cluster, hclmem, hweq⟩
    have hcne : cluster ≠ [] := clusters_ne_nil results cluster hclmem
    refine ⟨{ strategy := ("semantic").data
              taskType := tt
              winningAnswer := match SemanticAggregator.longestOf w.responses with
                | some b => b.response
                | none => []
              winningGroup := w
              allGroups := w :: rest
              totalExperts := results.length
              agreement := (w.voteCount : ℚ) / results.length
              summary := SemanticAggregator.buildSummary (w :: rest) results.length },
      ?_, ?_⟩
    · simp only [SemanticAggregator.aggregate]
      rw [hcg]
    · cases hcl : cluster with
      | nil => exact absurd hcl hcne
      | cons c0 crest =>
        subst hweq
        dsimp only
        rw [hcl]
        rw [show SemanticAggregator.longestOf (c0 :: crest) =
          some (crest.foldl (fun best curr =>
            if best.response.length < curr.response.length then curr else best) c0) from rfl]
        obtain ⟨hmem, hbound⟩ := foldl_longest_spec crest c0
        exact ⟨_, hmem, rfl, hbound⟩

/-- Witness for C1 (amended) on a single-expert input. -/
theorem semantic_winningAnswer_longest_witness :
    ([sampleSuccess] : List ExpertResult) ≠ [] ∧
    (∃ res, SemanticAggregator.aggregate [sampleSuccess] TaskType.open_ended = some res ∧
      ∃ r ∈ res.winningGroup.responses,
        res.winningAnswer = r.response ∧
        ∀ r2 ∈ res.winningGroup.responses, r2.response.length ≤ r.response.length) :=
  ⟨by simp, semantic_winningAnswer_longest [sampleSuccess] TaskType.open_ended (by simp)⟩
